import Mathlib

/-!
Verification of the resident-allocation scheduling engine (`app.py`).

The program reads a dataframe of slot rows (Date, Assignment, Name, Hours,
Staff Type), derives the agent list and an availability dictionary
(`prepare_availability`), builds a CP-SAT model with one binary variable per
available (resident, slot) pair, a coverage constraint per slot, bounded
per-resident load variables, and one of three objectives
(`fairness`, `min_hours`, `elective_focus`), then extracts the solver's
solution into a result table (`solve_model`).

The model below is a shallow embedding of that pipeline: dataframes are lists
of rows, the availability dictionary is an association list built in the same
order as the Python double loop, a candidate solver solution is a Boolean
valuation of the decision variables, and the CP-SAT constraints become
predicates on that valuation.
-/

namespace Alocacao

/-- One row of the (date-filtered, reindexed) dataframe: Date, Assignment,
Name, Hours, Staff Type. Dates are abstracted as naturals ordered like
calendar dates; Staff Type is kept as a character list so that Python's
substring test can be modelled directly. -/
structure Row where
  date : Nat
  assignmentLabel : String
  name : String
  hours : Int
  staffType : List Char
deriving DecidableEq

/-- One row of the dataframe returned by `solve_model` (section 2.6 of the
source): Date, Assignment, Resident, Hours, Staff Type. -/
structure ResultRow where
  date : Nat
  assignmentLabel : String
  resident : String
  hours : Int
  staffType : List Char
deriving DecidableEq

/-- Helper for `pandas.unique`: keep the first occurrence of each name,
in encounter order, tracking the names already seen. -/
def uniqueAux : List String → List String → List String
  | [], _ => []
  | a :: t, seen => if a ∈ seen then uniqueAux t seen else a :: uniqueAux t (a :: seen)

/-- `pandas.Series.unique`: the distinct values, first occurrences first. -/
def uniqueKeepFirst (l : List String) : List String :=
  uniqueAux l []

/-- `residentes = list(df["Name"].unique())` in `prepare_availability`. -/
def residentesOf (df : List Row) : List String :=
  uniqueKeepFirst (df.map (fun row => row.name))

/-- `slots = df.index.tolist()` in `prepare_availability`: after
`reset_index(drop=True)` the index is `0, 1, ..., len(df)-1`. -/
def slotsOf (df : List Row) : List Nat :=
  List.range df.length

/-- The availability dictionary built by `prepare_availability`: for each
resident `r` (outer loop) and slot `i` (inner loop), `availability[(r,i)] = True`.
Represented as the association list in insertion order. -/
def availabilityOf (df : List Row) : List ((String × Nat) × Bool) :=
  (residentesOf df).flatMap (fun r => (slotsOf df).map (fun i => ((r, i), true)))

/-- Section 2.1 of `solve_model`: the keys of the decision-variable dictionary
`x`, one per availability entry whose value is `True`, in dictionary order. -/
def buildX (availability : List ((String × Nat) × Bool)) : List (String × Nat) :=
  (availability.filter (fun e => e.2)).map (fun e => e.1)

/-- The decision-variable keys of `solve_model` when fed the availability
dictionary from `prepare_availability`. -/
def xKeysOf (df : List Row) : List (String × Nat) :=
  buildX (availabilityOf df)

/-- Row lookup `df.loc[i]` / `df.at[i, col]`; out-of-range indices (never used
by the program) default to a blank row. -/
def rowAt (df : List Row) (i : Nat) : Row :=
  df.getD i ⟨0, "", "", 0, []⟩

/-- `int(df.at[i, "Hours"])`, precomputed in section 2.3. -/
def hoursAt (df : List Row) (i : Nat) : Int :=
  (rowAt df i).hours

/-- `str(df.at[i, "Staff Type"])`. -/
def staffTypeAt (df : List Row) (i : Nat) : List Char :=
  (rowAt df i).staffType

/-- A candidate valuation of the decision variables: the value the solver
gives to `x[(r, i)]`. -/
abbrev Sol := String × Nat → Bool

/-- Section 2.2 of `solve_model`: the number of selected variables among
`[x[(r, i)] for r in residentes if (r, i) in x]` for one slot `i`. -/
def slotVarsCount (df : List Row) (sol : Sol) (i : Nat) : Nat :=
  (((residentesOf df).filter (fun r => decide ((r, i) ∈ xKeysOf df))).filter
    (fun r => sol (r, i))).length

/-- The coverage constraints of section 2.2: each slot is covered exactly
once, `model.Add(sum(vars_slot) == 1)`. -/
def Coverage (df : List Row) (sol : Sol) : Prop :=
  ∀ i ∈ slotsOf df, slotVarsCount df sol i = 1

instance (df : List Row) (sol : Sol) : Decidable (Coverage df sol) := by
  unfold Coverage; infer_instance

/-- `sum(hours.values())`: the bound used for every load variable and for
`z_max`, `z_min`. The dictionary `hours` has one entry per variable key. -/
def sumHoursValues (df : List Row) : Int :=
  ((xKeysOf df).map (fun p => hoursAt df p.2)).sum

/-- Section 2.4: the value forced onto the load variable `total_hours[r]` by
`model.Add(total_hours[r] == sum(terms))`, where `terms` collects
`x[(r, i)] * hours[(r, i)]` over slots `i` with `(r, i) in x`. -/
def totalHoursOf (df : List Row) (sol : Sol) (r : String) : Int :=
  (((slotsOf df).filter (fun i => decide ((r, i) ∈ xKeysOf df))).map
    (fun i => if sol (r, i) then hoursAt df i else 0)).sum

/-- The domain constraint `total_hours[r] = model.NewIntVar(0, sum(hours.values()))`:
each resident's load must lie in `[0, sum(hours.values())]` for the model to
be satisfiable. -/
def LoadBoundsOk (df : List Row) (sol : Sol) : Prop :=
  ∀ r ∈ residentesOf df,
    0 ≤ totalHoursOf df sol r ∧ totalHoursOf df sol r ≤ sumHoursValues df

instance (df : List Row) (sol : Sol) : Decidable (LoadBoundsOk df sol) := by
  unfold LoadBoundsOk; infer_instance

/-- The objective-independent constraints of the CP-SAT model: coverage plus
the load-variable domains. A solver solution satisfies exactly these. -/
def ModelFeasible (df : List Row) (sol : Sol) : Prop :=
  Coverage df sol ∧ LoadBoundsOk df sol

instance (df : List Row) (sol : Sol) : Decidable (ModelFeasible df sol) := by
  unfold ModelFeasible; infer_instance

/-- The `min_hours` objective of section 2.4:
`sum(total_hours[r] for r in residentes)`. -/
def minHoursObj (df : List Row) (sol : Sol) : Int :=
  ((residentesOf df).map (totalHoursOf df sol)).sum

/-- Whether `pat` matches at the head of `s` (character-by-character). -/
def leadMatch : List Char → List Char → Bool
  | [], _ => true
  | _ :: _, [] => false
  | a :: ps, b :: ss => a == b && leadMatch ps ss

/-- Python's substring containment `pat in s`: `pat` matches at some
position of `s`. -/
def subMatch (pat : List Char) : List Char → Bool
  | [] => leadMatch pat []
  | b :: ss => leadMatch pat (b :: ss) || subMatch pat ss

/-- The characters of the hard-coded category marker. -/
def electiveChars : List Char :=
  "Elective".toList

/-- Section 2.3: `elective_bonus[(r, i)] = 1 if "Elective" in str(df.at[i, "Staff Type"]) else 0`. -/
def electiveBonus (df : List Row) (p : String × Nat) : Int :=
  if subMatch electiveChars (staffTypeAt df p.2) then 1 else 0

/-- The `elective_focus` objective of section 2.4: the minimized expression
`-sum(x[(r, i)] * elective_bonus[(r, i)])` over the variable dictionary. -/
def electiveObj (df : List Row) (sol : Sol) : Int :=
  -(((xKeysOf df).map (fun p => if sol p then electiveBonus df p else 0)).sum)

/-- The `fairness` branch of section 2.4: a full assignment of the model's
variables is the valuation `sol` together with values for `z_max` and `z_min`;
it is feasible when the base model is satisfied, both auxiliaries lie in their
declared domain `[0, sum(hours.values())]`, and for every resident
`total_hours[r] <= z_max` and `total_hours[r] >= z_min`. The minimized
objective is `z_max - z_min`. -/
def FairTripleOk (df : List Row) (sol : Sol) (zmax zmin : Int) : Prop :=
  ModelFeasible df sol ∧
  0 ≤ zmax ∧ zmax ≤ sumHoursValues df ∧
  0 ≤ zmin ∧ zmin ≤ sumHoursValues df ∧
  ∀ r ∈ residentesOf df,
    totalHoursOf df sol r ≤ zmax ∧ zmin ≤ totalHoursOf df sol r

instance (df : List Row) (sol : Sol) (zmax zmin : Int) :
    Decidable (FairTripleOk df sol zmax zmin) := by
  unfold FairTripleOk; infer_instance

/-- Largest element of a list of integers (0 for the empty list, which the
program never maximizes over). -/
def maxList : List Int → Int
  | [] => 0
  | a :: t => t.foldl max a

/-- Smallest element of a list of integers (0 for the empty list). -/
def minList : List Int → Int
  | [] => 0
  | a :: t => t.foldl min a

/-- The fairness spread of a valuation: max per-resident load minus min
per-resident load. -/
def loadSpread (df : List Row) (sol : Sol) : Int :=
  maxList ((residentesOf df).map (totalHoursOf df sol)) -
    minList ((residentesOf df).map (totalHoursOf df sol))

/-- The CP-SAT termination statuses relevant to `solve_model`:
`OPTIMAL`, `FEASIBLE`, `INFEASIBLE`, `MODEL_INVALID`, and `UNKNOWN` (the
status when the 20-second budget elapses with no solution found). -/
inductive CpStatus
  | optimal
  | feasible
  | infeasible
  | modelInvalid
  | unknown
deriving DecidableEq

/-- The result row appended for a selected pair `(r, i)`:
Date, Assignment, Resident, Hours, Staff Type taken from `df.loc[i]`. -/
def mkResultRow (df : List Row) (p : String × Nat) : ResultRow :=
  { date := (rowAt df p.2).date
    assignmentLabel := (rowAt df p.2).assignmentLabel
    resident := p.1
    hours := (rowAt df p.2).hours
    staffType := (rowAt df p.2).staffType }

/-- Section 2.6 of `solve_model`: when the status is `OPTIMAL` or `FEASIBLE`,
iterate over `x.items()` in dictionary order appending a row for each variable
whose value is 1; otherwise the result list stays empty. -/
def extractResults (df : List Row) (xKeys : List (String × Nat))
    (status : CpStatus) (sol : Sol) : List ResultRow :=
  if status = CpStatus.optimal ∨ status = CpStatus.feasible then
    xKeys.foldl (fun acc p => if sol p then acc ++ [mkResultRow df p] else acc) []
  else []

/-- The recognized objective strings of `solve_model`. -/
inductive ObjKind
  | fairness
  | minHours
  | electiveFocus
deriving DecidableEq

/-- The objective dispatch of section 2.4: the `if/elif/elif/else` chain that
raises `ValueError` for an unrecognized objective string. -/
def dispatchObjective (objective : String) : Except String ObjKind :=
  if objective = "fairness" then Except.ok ObjKind.fairness
  else if objective = "min_hours" then Except.ok ObjKind.minHours
  else if objective = "elective_focus" then Except.ok ObjKind.electiveFocus
  else Except.error ("Objective nao reconhecido: " ++ objective)

/-- The observable behaviour of one `solve_model` call, with the solver's
verdict abstracted as inputs: the objective string is dispatched (possibly
raising `ValueError`), the solver returns `status` and, when it claims a
solution, the valuation `sol`; the function's return value is the extracted
dataframe. -/
def solveModelRun (df : List Row) (objective : String) (status : CpStatus)
    (sol : Sol) : Except String (List ResultRow) :=
  match dispatchObjective objective with
  | Except.error e => Except.error e
  | Except.ok _ => Except.ok (extractResults df (xKeysOf df) status sol)

/-- The resident-major product of the resident and slot lists: the insertion
order of the availability dictionary (and hence of `x`). -/
def pairsFor (R : List String) (S : List Nat) : List (String × Nat) :=
  R.flatMap (fun r => S.map (fun i => (r, i)))

/-- The variable keys whose value the solver set to 1, in `x.items()` order:
the (resident, slot) pairs selected by the solution. -/
def selectedPairs (df : List Row) (sol : Sol) : List (String × Nat) :=
  (xKeysOf df).filter (fun p => sol p)

/-- The eligible (available) agent set of one slot: the residents whose pair
with that slot is marked available in the dictionary. -/
def eligibleOf (df : List Row) (i : Nat) : List String :=
  (residentesOf df).filter (fun r => decide (((r, i), true) ∈ availabilityOf df))

/-- The bonus total `sum(x[(r, i)] * elective_bonus[(r, i)])` whose negation
the `elective_focus` branch minimizes. -/
def bonusSum (df : List Row) (sol : Sol) : Int :=
  ((xKeysOf df).map (fun p => if sol p then electiveBonus df p else 0)).sum

/-- The Date column of the dataframe returned for a successful solve. -/
def resultDatesOf (df : List Row) (sol : Sol) : List Nat :=
  (extractResults df (xKeysOf df) CpStatus.optimal sol).map (fun row => row.date)

/-- Whether a list of dates is in ascending calendar order. -/
def ascendingDates : List Nat → Bool
  | [] => true
  | [_] => true
  | a :: b :: t => a ≤ b && ascendingDates (b :: t)

/-- The non-adjacency property of the spec: no resident holds two slots whose
dates are one week apart (the adjacency keys of two sequential weekly slots). -/
def NonAdjRespect (df : List Row) (sol : Sol) : Prop :=
  ∀ r ∈ residentesOf df, ∀ i ∈ slotsOf df, ∀ j ∈ slotsOf df,
    (rowAt df j).date = (rowAt df i).date + 7 →
      ¬ (sol (r, i) = true ∧ sol (r, j) = true)

instance (df : List Row) (sol : Sol) : Decidable (NonAdjRespect df sol) := by
  unfold NonAdjRespect; infer_instance

/-- A valuation the solver may return under the `min_hours` objective: it
satisfies every model constraint and attains the minimal objective value among
all valuations satisfying them. -/
def MinHoursOptimal (df : List Row) (sol : Sol) : Prop :=
  ModelFeasible df sol ∧
  ∀ sol' : Sol, ModelFeasible df sol' → minHoursObj df sol ≤ minHoursObj df sol'

/-- A non-elective staff-type string. -/
def wardChars : List Char :=
  "Ward".toList

/-- A one-slot, one-resident instance. -/
def dfOne : List Row :=
  [⟨0, "S1", "a", 1, wardChars⟩]

/-- The only covering valuation of `dfOne`. -/
def solOne : Sol :=
  fun p => decide (p = ("a", 0))

/-- A two-slot, two-resident instance whose first slot has the later date. -/
def dfDates : List Row :=
  [⟨10, "S1", "a", 1, wardChars⟩, ⟨3, "S2", "b", 1, wardChars⟩]

/-- A covering valuation of `dfDates`: resident a takes slot 0 (date 10),
resident b takes slot 1 (date 3). -/
def solDates : Sol :=
  fun p => decide (p = ("a", 0)) || decide (p = ("b", 1))

/-- Five sequential weekly slots (dates one week apart) over three agents. -/
def dfWeeks : List Row :=
  [⟨0, "W1", "a", 1, wardChars⟩,
   ⟨7, "W2", "b", 1, wardChars⟩,
   ⟨14, "W3", "c", 1, wardChars⟩,
   ⟨21, "W4", "a", 1, wardChars⟩,
   ⟨28, "W5", "b", 1, wardChars⟩]

/-- A covering valuation of `dfWeeks` that gives resident a the first two
(consecutive) weeks. -/
def solWeeks : Sol :=
  fun p =>
    decide (p = ("a", 0)) || decide (p = ("a", 1)) || decide (p = ("b", 2)) ||
    decide (p = ("c", 3)) || decide (p = ("b", 4))

/-- A one-slot instance whose Staff Type contains, but does not equal,
the marker "Elective". -/
def dfNE : List Row :=
  [⟨0, "S1", "a", 1, "Non-Elective Ward".toList⟩]

/-! ### General list helpers -/

theorem buildX_map_true (pairs : List (String × Nat)) :
    buildX (pairs.map (fun p => (p, true))) = pairs := by
  induction pairs with
  | nil => rfl
  | cons p t ih => simpa [buildX, List.filter_cons] using ih

theorem availabilityOf_eq (df : List Row) :
    availabilityOf df =
      (pairsFor (residentesOf df) (slotsOf df)).map (fun p => (p, true)) := by
  simp [availabilityOf, pairsFor, List.map_flatMap, List.map_map, Function.comp_def]

theorem xKeysOf_eq (df : List Row) :
    xKeysOf df = pairsFor (residentesOf df) (slotsOf df) := by
  rw [xKeysOf, availabilityOf_eq, buildX_map_true]

theorem mem_pairsFor {R : List String} {S : List Nat} {p : String × Nat} :
    p ∈ pairsFor R S ↔ p.1 ∈ R ∧ p.2 ∈ S := by
  cases p with
  | mk r i =>
    simp only [pairsFor, List.mem_flatMap, List.mem_map, Prod.mk.injEq]
    constructor
    · rintro ⟨a, ha, j, hj, h1, h2⟩
      subst h1; subst h2; exact ⟨ha, hj⟩
    · rintro ⟨hr, hi⟩
      exact ⟨r, hr, i, hi, rfl, rfl⟩

theorem mem_xKeysOf {df : List Row} {p : String × Nat} :
    p ∈ xKeysOf df ↔ p.1 ∈ residentesOf df ∧ p.2 ∈ slotsOf df := by
  rw [xKeysOf_eq]; exact mem_pairsFor

theorem countP_pairsFor (R : List String) (S : List Nat)
    (q : String × Nat → Bool) :
    (pairsFor R S).countP q =
      (R.map (fun r => S.countP (fun i => q (r, i)))).sum := by
  induction R with
  | nil => rfl
  | cons r t ih =>
    simp only [pairsFor, List.flatMap_cons, List.countP_append, List.countP_map,
      List.map_cons, List.sum_cons] at *
    rw [ih]
    rfl

theorem countP_range_decide (n i : Nat) :
    (List.range n).countP (fun j => decide (j = i)) = if i < n then 1 else 0 := by
  induction n with
  | zero => simp
  | succ n ih =>
    rw [List.range_succ, List.countP_append, ih]
    by_cases h : i < n
    · have h' : i < n + 1 := Nat.lt_succ_of_lt h
      have hne : ¬ (n = i) := by omega
      simp [h, h', List.countP_cons, hne]
    · by_cases h2 : i = n
      · subst h2
        simp [h, List.countP_cons]
      · have h' : ¬ (i < n + 1) := by omega
        have hne : ¬ (n = i) := by omega
        simp [h, h', List.countP_cons, hne]

theorem countP_decide_and (S : List Nat) (i : Nat) (c : Nat → Bool) :
    S.countP (fun j => decide (j = i) && c j) =
      if c i then S.countP (fun j => decide (j = i)) else 0 := by
  induction S with
  | nil => simp
  | cons j t ih =>
    by_cases hj : j = i
    · subst hj
      by_cases hc : c j
      · simp [List.countP_cons, hc, ih]
      · simp [List.countP_cons, hc, ih]
    · by_cases hc : c i
      · simp [List.countP_cons, hj, ih, hc]
      · simp [List.countP_cons, hj, ih, hc]

theorem sum_map_boole_eq_countP (R : List String) (c : String → Bool) :
    (R.map (fun r => if c r then (1 : Nat) else 0)).sum = R.countP c := by
  induction R with
  | nil => rfl
  | cons r t ih =>
    by_cases hc : c r
    · simp [List.countP_cons, hc, ih, Nat.add_comm]
    · simp [List.countP_cons, hc, ih]

theorem sum_map_ite_const (R : List String) (c : String → Bool) (v : Int) :
    (R.map (fun r => if c r then v else 0)).sum = (R.countP c : Int) * v := by
  induction R with
  | nil => simp
  | cons r t ih =>
    by_cases hc : c r
    · simp [List.countP_cons, hc, ih]
      ring
    · simp [List.countP_cons, hc, ih]

theorem sum_map_add (l : List Nat) (f g : Nat → Int) :
    (l.map (fun x => f x + g x)).sum = (l.map f).sum + (l.map g).sum := by
  induction l with
  | nil => simp
  | cons a t ih =>
    simp only [List.map_cons, List.sum_cons, ih]
    ring

theorem sum_map_sum_comm (R : List String) (S : List Nat) (f : String → Nat → Int) :
    (R.map (fun r => (S.map (f r)).sum)).sum =
      (S.map (fun i => (R.map (fun r => f r i)).sum)).sum := by
  induction R with
  | nil => simp
  | cons r t ih =>
    simp only [List.map_cons, List.sum_cons, ih]
    rw [sum_map_add S (f r) (fun i => (t.map (fun a => f a i)).sum)]

theorem foldl_extract (df : List Row) (sol : Sol) (l : List (String × Nat))
    (acc : List ResultRow) :
    l.foldl (fun acc p => if sol p then acc ++ [mkResultRow df p] else acc) acc =
      acc ++ (l.filter (fun p => sol p)).map (mkResultRow df) := by
  induction l generalizing acc with
  | nil => simp
  | cons p t ih =>
    by_cases hp : sol p
    · simp [List.filter_cons, hp, ih]
    · simp [List.filter_cons, hp, ih]

/-! ### Helpers on maxima and minima of integer lists -/

theorem le_foldl_max (t : List Int) : ∀ a : Int, a ≤ t.foldl max a := by
  induction t with
  | nil => intro a; exact le_refl a
  | cons b s ih =>
    intro a
    exact le_trans (le_max_left a b) (ih (max a b))

theorem foldl_max_of_mem (t : List Int) :
    ∀ a x : Int, x ∈ t → x ≤ t.foldl max a := by
  induction t with
  | nil => intro a x hx; cases hx
  | cons b s ih =>
    intro a x hx
    rcases List.mem_cons.mp hx with h | h
    · subst h
      exact le_trans (le_max_right a x) (le_foldl_max s (max a x))
    · exact ih (max a b) x h

theorem le_maxList {l : List Int} {x : Int} (hx : x ∈ l) : x ≤ maxList l := by
  cases l with
  | nil => cases hx
  | cons a t =>
    rcases List.mem_cons.mp hx with h | h
    · subst h; exact le_foldl_max t x
    · exact foldl_max_of_mem t a x h

theorem foldl_max_le (t : List Int) :
    ∀ a z : Int, a ≤ z → (∀ x ∈ t, x ≤ z) → t.foldl max a ≤ z := by
  induction t with
  | nil => intro a z ha _; exact ha
  | cons b s ih =>
    intro a z ha hall
    exact ih (max a b) z (max_le ha (hall b (List.mem_cons_self b s)))
      (fun x hx => hall x (List.mem_cons_of_mem b hx))

theorem maxList_le {l : List Int} {z : Int} (hne : l ≠ [])
    (hall : ∀ x ∈ l, x ≤ z) : maxList l ≤ z := by
  cases l with
  | nil => exact absurd rfl hne
  | cons a t =>
    exact foldl_max_le t a z (hall a (List.mem_cons_self a t))
      (fun x hx => hall x (List.mem_cons_of_mem a hx))

theorem foldl_min_le (t : List Int) : ∀ a : Int, t.foldl min a ≤ a := by
  induction t with
  | nil => intro a; exact le_refl a
  | cons b s ih =>
    intro a
    exact le_trans (ih (min a b)) (min_le_left a b)

theorem foldl_min_of_mem (t : List Int) :
    ∀ a x : Int, x ∈ t → t.foldl min a ≤ x := by
  induction t with
  | nil => intro a x hx; cases hx
  | cons b s ih =>
    intro a x hx
    rcases List.mem_cons.mp hx with h | h
    · subst h
      exact le_trans (foldl_min_le s (min a x)) (min_le_right a x)
    · exact ih (min a b) x h

theorem minList_le {l : List Int} {x : Int} (hx : x ∈ l) : minList l ≤ x := by
  cases l with
  | nil => cases hx
  | cons a t =>
    rcases List.mem_cons.mp hx with h | h
    · subst h; exact foldl_min_le t x
    · exact foldl_min_of_mem t a x h

theorem le_foldl_min (t : List Int) :
    ∀ a z : Int, z ≤ a → (∀ x ∈ t, z ≤ x) → z ≤ t.foldl min a := by
  induction t with
  | nil => intro a z ha _; exact ha
  | cons b s ih =>
    intro a z ha hall
    exact ih (min a b) z (le_min ha (hall b (List.mem_cons_self b s)))
      (fun x hx => hall x (List.mem_cons_of_mem b hx))

theorem le_minList {l : List Int} {z : Int} (hne : l ≠ [])
    (hall : ∀ x ∈ l, z ≤ x) : z ≤ minList l := by
  cases l with
  | nil => exact absurd rfl hne
  | cons a t =>
    exact le_foldl_min t a z (hall a (List.mem_cons_self a t))
      (fun x hx => hall x (List.mem_cons_of_mem a hx))

/-! ### Bridge lemmas between the model pieces and the pair structure -/

theorem decide_mem_xKeys {df : List Row} {r : String} {i : Nat}
    (hr : r ∈ residentesOf df) (hi : i ∈ slotsOf df) :
    decide ((r, i) ∈ xKeysOf df) = true := by
  exact decide_eq_true (mem_xKeysOf.mpr ⟨hr, hi⟩)

theorem totalHoursOf_eq_of_mem {df : List Row} {sol : Sol} {r : String}
    (hr : r ∈ residentesOf df) :
    totalHoursOf df sol r =
      ((slotsOf df).map (fun i => if sol (r, i) then hoursAt df i else 0)).sum := by
  unfold totalHoursOf
  rw [List.filter_eq_self.mpr (fun i hi => decide_mem_xKeys hr hi)]

theorem slotVarsCount_eq {df : List Row} {sol : Sol} {i : Nat}
    (hi : i ∈ slotsOf df) :
    slotVarsCount df sol i = (residentesOf df).countP (fun r => sol (r, i)) := by
  unfold slotVarsCount
  rw [List.filter_eq_self.mpr (fun r hr => decide_mem_xKeys hr hi)]
  rw [← List.countP_eq_length_filter]

theorem coverage_countP {df : List Row} {sol : Sol} (hcov : Coverage df sol) :
    ∀ i ∈ slotsOf df, (residentesOf df).countP (fun r => sol (r, i)) = 1 := by
  intro i hi
  rw [← slotVarsCount_eq hi]
  exact hcov i hi

theorem selected_countP_slot {df : List Row} {sol : Sol}
    (hcov : Coverage df sol) :
    ∀ i ∈ slotsOf df,
      ((xKeysOf df).filter (fun p => sol p)).countP (fun p => decide (p.2 = i)) = 1 := by
  intro i hi
  have hin : i < df.length := List.mem_range.mp hi
  rw [List.countP_filter, xKeysOf_eq, countP_pairsFor]
  have hpoint : ∀ r ∈ residentesOf df,
      (slotsOf df).countP (fun j => decide (j = i) && sol (r, j)) =
        if sol (r, i) then (1 : Nat) else 0 := by
    intro r _
    rw [countP_decide_and (slotsOf df) i (fun j => sol (r, j))]
    by_cases hs : sol (r, i)
    · simp only [hs, if_true]
      simpa [slotsOf, hin] using countP_range_decide df.length i
    · simp [hs]
  calc ((residentesOf df).map
        (fun r => (slotsOf df).countP (fun j => decide ((j, sol (r, j)).1 = i) && (j, sol (r, j)).2))).sum
      = ((residentesOf df).map (fun r => if sol (r, i) then (1 : Nat) else 0)).sum := by
        apply congrArg
        apply List.map_congr_left
        intro r hr
        simpa using hpoint r hr
    _ = (residentesOf df).countP (fun r => sol (r, i)) := sum_map_boole_eq_countP _ _
    _ = 1 := coverage_countP hcov i hi

theorem sum_loads_eq_total {df : List Row} {sol : Sol} (hcov : Coverage df sol) :
    ((residentesOf df).map (totalHoursOf df sol)).sum =
      ((slotsOf df).map (hoursAt df)).sum := by
  have h1 : ((residentesOf df).map (totalHoursOf df sol)).sum =
      ((residentesOf df).map (fun r =>
        ((slotsOf df).map (fun i => if sol (r, i) then hoursAt df i else 0)).sum)).sum := by
    apply congrArg
    exact List.map_congr_left (fun r hr => totalHoursOf_eq_of_mem hr)
  rw [h1, sum_map_sum_comm]
  apply congrArg
  apply List.map_congr_left
  intro i hi
  rw [sum_map_ite_const (residentesOf df) (fun r => sol (r, i)) (hoursAt df i)]
  rw [coverage_countP hcov i hi]
  simp

theorem minHoursObj_eq_of_coverage {df : List Row} {sol : Sol}
    (hcov : Coverage df sol) :
    minHoursObj df sol = ((slotsOf df).map (hoursAt df)).sum := by
  exact sum_loads_eq_total hcov

theorem extractResults_optimal (df : List Row) (xKeys : List (String × Nat))
    (sol : Sol) :
    extractResults df xKeys CpStatus.optimal sol =
      (xKeys.filter (fun p => sol p)).map (mkResultRow df) := by
  unfold extractResults
  rw [if_pos (Or.inl rfl)]
  simpa using foldl_extract df sol xKeys []

theorem extractResults_feasible (df : List Row) (xKeys : List (String × Nat))
    (sol : Sol) :
    extractResults df xKeys CpStatus.feasible sol =
      (xKeys.filter (fun p => sol p)).map (mkResultRow df) := by
  unfold extractResults
  rw [if_pos (Or.inr rfl)]
  simpa using foldl_extract df sol xKeys []

/-! ### Fairness lemmas -/

theorem loads_map_ne_nil {df : List Row} {sol : Sol}
    (hne : residentesOf df ≠ []) :
    (residentesOf df).map (totalHoursOf df sol) ≠ [] := by
  intro h
  exact hne (List.map_eq_nil_iff.mp h)

theorem loadSpread_le_fairObj {df : List Row} {sol : Sol} {zmax zmin : Int}
    (hne : residentesOf df ≠ []) (h : FairTripleOk df sol zmax zmin) :
    loadSpread df sol ≤ zmax - zmin := by
  obtain ⟨-, -, -, -, -, hcons⟩ := h
  have hmax : maxList ((residentesOf df).map (totalHoursOf df sol)) ≤ zmax := by
    apply maxList_le (loads_map_ne_nil hne)
    intro x hx
    obtain ⟨r, hr, rfl⟩ := List.mem_map.mp hx
    exact (hcons r hr).1
  have hmin : zmin ≤ minList ((residentesOf df).map (totalHoursOf df sol)) := by
    apply le_minList (loads_map_ne_nil hne)
    intro x hx
    obtain ⟨r, hr, rfl⟩ := List.mem_map.mp hx
    exact (hcons r hr).2
  unfold loadSpread
  omega

theorem fairTriple_of_feasible {df : List Row} {sol : Sol}
    (hne : residentesOf df ≠ []) (hfeas : ModelFeasible df sol) :
    FairTripleOk df sol
      (maxList ((residentesOf df).map (totalHoursOf df sol)))
      (minList ((residentesOf df).map (totalHoursOf df sol))) := by
  obtain ⟨hcov, hload⟩ := hfeas
  obtain ⟨r0, hr0⟩ := List.exists_mem_of_ne_nil _ hne
  have hmem0 : totalHoursOf df sol r0 ∈ (residentesOf df).map (totalHoursOf df sol) :=
    List.mem_map_of_mem _ hr0
  refine ⟨⟨hcov, hload⟩, ?_, ?_, ?_, ?_, ?_⟩
  · exact le_trans (hload r0 hr0).1 (le_maxList hmem0)
  · apply maxList_le (loads_map_ne_nil hne)
    intro x hx
    obtain ⟨r, hr, rfl⟩ := List.mem_map.mp hx
    exact (hload r hr).2
  · apply le_minList (loads_map_ne_nil hne)
    intro x hx
    obtain ⟨r, hr, rfl⟩ := List.mem_map.mp hx
    exact (hload r hr).1
  · exact le_trans (minList_le hmem0) (hload r0 hr0).2
  · intro r hr
    exact ⟨le_maxList (List.mem_map_of_mem _ hr), minList_le (List.mem_map_of_mem _ hr)⟩

/-! ### Substring lemmas for the elective bonus -/

theorem leadMatch_iff (pat : List Char) :
    ∀ s : List Char, leadMatch pat s = true ↔ ∃ t, s = pat ++ t := by
  induction pat with
  | nil =>
    intro s
    simp [leadMatch]
  | cons a ps ih =>
    intro s
    cases s with
    | nil => simp [leadMatch]
    | cons b ss =>
      rw [leadMatch]
      simp only [Bool.and_eq_true, beq_iff_eq, ih ss]
      constructor
      · rintro ⟨rfl, t, rfl⟩
        exact ⟨t, rfl⟩
      · rintro ⟨t, h⟩
        rw [List.cons_append] at h
        injection h with h1 h2
        exact ⟨h1.symm, t, h2⟩

theorem subMatch_iff (pat : List Char) :
    ∀ s : List Char, subMatch pat s = true ↔ ∃ l r, s = l ++ pat ++ r := by
  intro s
  induction s with
  | nil =>
    rw [subMatch, leadMatch_iff]
    constructor
    · rintro ⟨t, ht⟩
      rcases List.append_eq_nil.mp ht.symm with ⟨hp, htn⟩
      exact ⟨[], [], by simp [hp]⟩
    · rintro ⟨l, r, hr⟩
      have h0 := hr.symm
      rw [List.append_assoc] at h0
      rcases List.append_eq_nil.mp h0 with ⟨hl, h1⟩
      rcases List.append_eq_nil.mp h1 with ⟨hp, hrn⟩
      exact ⟨[], by simp [hp]⟩
  | cons b ss ih =>
    rw [subMatch]
    simp only [Bool.or_eq_true, leadMatch_iff, ih]
    constructor
    · rintro (⟨t, ht⟩ | ⟨l, r, hr⟩)
      · exact ⟨[], t, by simpa using ht⟩
      · exact ⟨b :: l, r, by rw [hr]; simp⟩
    · rintro ⟨l, r, hr⟩
      cases l with
      | nil =>
        left
        exact ⟨r, by simpa using hr⟩
      | cons c l' =>
        right
        rw [List.cons_append, List.cons_append] at hr
        injection hr with h1 h2
        exact ⟨l', r, h2⟩

/-! ### Claim theorems -/

/-- Claim C1: for every feasible instance and any objective, the table
returned by `solve_model` contains each slot exactly once — each slot index
of the filtered dataframe appears in exactly one selected variable, hence in
exactly one result row — and the resident assigned to each slot is in that
slot's available set (its pair is marked `True` in the availability
dictionary). -/
theorem c1_coverage_and_eligibility (df : List Row) (sol : Sol)
    (hfeas : ModelFeasible df sol) :
    (∀ i ∈ slotsOf df,
      (selectedPairs df sol).countP (fun p => decide (p.2 = i)) = 1) ∧
    (∀ p ∈ selectedPairs df sol, (p, true) ∈ availabilityOf df) ∧
    extractResults df (xKeysOf df) CpStatus.optimal sol =
      (selectedPairs df sol).map (mkResultRow df) := by
  refine ⟨?_, ?_, extractResults_optimal df (xKeysOf df) sol⟩
  · intro i hi
    exact selected_countP_slot hfeas.1 i hi
  · intro p hp
    have hx : p ∈ xKeysOf df := (List.mem_filter.mp hp).1
    rw [availabilityOf_eq]
    refine List.mem_map.mpr ⟨p, ?_, rfl⟩
    rw [← xKeysOf_eq]
    exact hx

/-- Witness for C1 at the concrete two-slot, two-resident instance. -/
theorem c1_witness :
    ModelFeasible dfDates solDates ∧
    ((∀ i ∈ slotsOf dfDates,
        (selectedPairs dfDates solDates).countP (fun p => decide (p.2 = i)) = 1) ∧
     (∀ p ∈ selectedPairs dfDates solDates, (p, true) ∈ availabilityOf dfDates) ∧
     extractResults dfDates (xKeysOf dfDates) CpStatus.optimal solDates =
       (selectedPairs dfDates solDates).map (mkResultRow dfDates)) :=
  ⟨by decide, c1_coverage_and_eligibility dfDates solDates (by decide)⟩

/-- Claim C2 as stated is false: on the 5-sequential-weekly-slot, 3-agent
instance under the `min_hours` objective, it is not the case that every
solution the solver may return (feasible and objective-minimal) keeps one
agent off two consecutive weeks — the model contains no non-adjacency
constraint, so a valuation giving agent a both week 1 and week 2 satisfies
every constraint and attains the optimum. -/
theorem c2_counterexample :
    ¬ (∀ sol : Sol, MinHoursOptimal dfWeeks sol → NonAdjRespect dfWeeks sol) := by
  intro h
  have hfeas : ModelFeasible dfWeeks solWeeks := by decide
  have hopt : MinHoursOptimal dfWeeks solWeeks := by
    refine ⟨hfeas, ?_⟩
    intro sol' hsol'
    rw [minHoursObj_eq_of_coverage hfeas.1, minHoursObj_eq_of_coverage hsol'.1]
  exact (by decide : ¬ NonAdjRespect dfWeeks solWeeks) (h solWeeks hopt)

/-- Claim C2 amended: `solve_model` builds no non-adjacency constraint, so on
the 5-sequential-weekly-slot, 3-agent instance under `min_hours` there is a
valuation satisfying every model constraint and minimizing the objective that
assigns the same agent to two slots one week apart; the solver may return it. -/
theorem c2_amended :
    ∃ sol : Sol, MinHoursOptimal dfWeeks sol ∧ ¬ NonAdjRespect dfWeeks sol := by
  have hfeas : ModelFeasible dfWeeks solWeeks := by decide
  refine ⟨solWeeks, ⟨hfeas, ?_⟩, by decide⟩
  intro sol' hsol'
  rw [minHoursObj_eq_of_coverage hfeas.1, minHoursObj_eq_of_coverage hsol'.1]

/-- Claim C3 as stated is false at a concrete instance: for an infeasible
verdict and for a timed-out verdict (`UNKNOWN`), `solve_model` returns the
very same empty dataframe — the caller cannot tell the two outcomes apart
from the returned value. -/
theorem c3_counterexample :
    solveModelRun dfOne "min_hours" CpStatus.infeasible (fun _ => true) =
      solveModelRun dfOne "min_hours" CpStatus.unknown (fun _ => true) ∧
    solveModelRun dfOne "min_hours" CpStatus.infeasible (fun _ => true) =
      Except.ok [] :=
  ⟨rfl, rfl⟩

/-- Claim C3 amended: `solve_model` returns only the assignment dataframe; on
an `INFEASIBLE` verdict and on an `UNKNOWN` (time-budget exhausted) verdict it
returns the same empty table, so the two outcomes are not reported
distinctly. -/
theorem c3_no_status_distinction (df : List Row) (objective : String) (sol : Sol) :
    solveModelRun df objective CpStatus.infeasible sol =
      solveModelRun df objective CpStatus.unknown sol ∧
    extractResults df (xKeysOf df) CpStatus.infeasible sol = [] ∧
    extractResults df (xKeysOf df) CpStatus.unknown sol = [] := by
  have h1 : extractResults df (xKeysOf df) CpStatus.infeasible sol = [] := by
    unfold extractResults
    rw [if_neg]
    rintro (h | h) <;> exact CpStatus.noConfusion h
  have h2 : extractResults df (xKeysOf df) CpStatus.unknown sol = [] := by
    unfold extractResults
    rw [if_neg]
    rintro (h | h) <;> exact CpStatus.noConfusion h
  refine ⟨?_, h1, h2⟩
  unfold solveModelRun
  cases hd : dispatchObjective objective with
  | error e => rfl
  | ok k => rw [h1, h2]

/-- Claim C4: under the `fairness` objective the model constrains the two
auxiliary bounded variables by `load[agent] <= z_max` and
`load[agent] >= z_min` for every agent and minimizes `z_max - z_min`
(definition `FairTripleOk`); consequently, any optimal solution attains the
least possible spread max-load minus min-load among all feasible
valuations. -/
theorem c4_fairness_minimizes_spread (df : List Row) (sol : Sol)
    (zmax zmin : Int) (hne : residentesOf df ≠ [])
    (hfair : FairTripleOk df sol zmax zmin)
    (hopt : ∀ (sol' : Sol) (z1 z2 : Int),
      FairTripleOk df sol' z1 z2 → zmax - zmin ≤ z1 - z2) :
    ∀ sol' : Sol, ModelFeasible df sol' → loadSpread df sol ≤ loadSpread df sol' := by
  intro sol' hsol'
  have h1 := loadSpread_le_fairObj hne hfair
  have h3 := hopt sol' _ _ (fairTriple_of_feasible hne hsol')
  calc loadSpread df sol ≤ zmax - zmin := h1
    _ ≤ loadSpread df sol' := h3

/-- Witness for C4 at the concrete one-slot, one-resident instance with
`z_max = z_min = 1`. -/
theorem c4_witness :
    residentesOf dfOne ≠ [] ∧
    FairTripleOk dfOne solOne 1 1 ∧
    (∀ (sol' : Sol) (z1 z2 : Int),
      FairTripleOk dfOne sol' z1 z2 → 1 - 1 ≤ z1 - z2) ∧
    (∀ sol' : Sol, ModelFeasible dfOne sol' →
      loadSpread dfOne solOne ≤ loadSpread dfOne sol') := by
  have hopt : ∀ (sol' : Sol) (z1 z2 : Int),
      FairTripleOk dfOne sol' z1 z2 → 1 - 1 ≤ z1 - z2 := by
    intro sol' z1 z2 h
    have hc := h.2.2.2.2.2 "a" (by decide)
    linarith [hc.1, hc.2]
  exact ⟨by decide, by decide, hopt,
    c4_fairness_minimizes_spread dfOne solOne 1 1 (by decide) (by decide) hopt⟩

/-- Claim C5 as stated is false at a concrete instance: the bonus is computed
by substring containment, so a slot whose Staff Type is "Non-Elective Ward"
receives bonus 1 although its category does not equal "Elective". -/
theorem c5_counterexample :
    electiveBonus dfNE ("a", 0) = 1 ∧ staffTypeAt dfNE 0 ≠ electiveChars :=
  ⟨by decide, by decide⟩

/-- Claim C5 amended: under `elective_focus` the minimized expression is the
negated bonus total, so ranking valuations by the objective is exactly ranking
them by descending bonus total (the sum is maximized); and the bonus of a pair
is 1 exactly when "Elective" occurs as a substring of the slot's Staff Type
(not only when it equals it). -/
theorem c5_substring_bonus :
    (∀ (df : List Row) (p : String × Nat),
      electiveBonus df p = 1 ↔
        ∃ l r, staffTypeAt df p.2 = l ++ electiveChars ++ r) ∧
    (∀ (df : List Row) (sol sol2 : Sol),
      electiveObj df sol ≤ electiveObj df sol2 ↔
        bonusSum df sol2 ≤ bonusSum df sol) := by
  constructor
  · intro df p
    unfold electiveBonus
    by_cases h : subMatch electiveChars (staffTypeAt df p.2) = true
    · simp only [h, if_true]
      constructor
      · intro _
        exact (subMatch_iff electiveChars (staffTypeAt df p.2)).mp h
      · intro _
        trivial
    · simp only [h, if_false]
      constructor
      · intro h0
        exact absurd h0 (by norm_num)
      · intro hex
        exact absurd ((subMatch_iff electiveChars (staffTypeAt df p.2)).mpr hex) h
  · intro df sol sol2
    have he : ∀ s : Sol, electiveObj df s = -(bonusSum df s) := fun s => rfl
    rw [he sol, he sol2]
    exact neg_le_neg_iff

/-- Claim C6 as stated is false at a concrete instance: the rows of the
returned table follow the insertion order of the variable dictionary
(resident-major), not ascending slot date — a feasible two-slot instance
yields the date column [10, 3]. -/
theorem c6_counterexample :
    ModelFeasible dfDates solDates ∧
    resultDatesOf dfDates solDates = [10, 3] ∧
    ascendingDates (resultDatesOf dfDates solDates) = false :=
  ⟨by decide, by decide, by decide⟩

/-- Claim C6 amended: the result projection returns one row per decision
variable whose value is 1 (with the resident of that variable), in the
iteration order of the variable dictionary — resident-major, slot index
ascending within a resident — not ordered by slot date. -/
theorem c6_projection_order (df : List Row) (sol : Sol) :
    extractResults df (xKeysOf df) CpStatus.optimal sol =
      (selectedPairs df sol).map (mkResultRow df) ∧
    extractResults df (xKeysOf df) CpStatus.feasible sol =
      (selectedPairs df sol).map (mkResultRow df) ∧
    (∀ row ∈ extractResults df (xKeysOf df) CpStatus.optimal sol,
      ∃ p, p ∈ xKeysOf df ∧ sol p = true ∧ row = mkResultRow df p) := by
  refine ⟨extractResults_optimal df (xKeysOf df) sol,
    extractResults_feasible df (xKeysOf df) sol, ?_⟩
  intro row hrow
  rw [extractResults_optimal] at hrow
  obtain ⟨p, hp, rfl⟩ := List.mem_map.mp hrow
  obtain ⟨hpx, hps⟩ := List.mem_filter.mp hp
  exact ⟨p, hpx, hps, rfl⟩

/-- Claim C7: on the degenerate zero-slot instance, `solve_model` raises no
error and returns an empty but valid dataframe, for each of the three
recognized objectives and whatever verdict the solver reports. -/
theorem c7_empty_instance (status : CpStatus) (sol : Sol) :
    solveModelRun [] "fairness" status sol = Except.ok [] ∧
    solveModelRun [] "min_hours" status sol = Except.ok [] ∧
    solveModelRun [] "elective_focus" status sol = Except.ok [] := by
  refine ⟨?_, ?_, ?_⟩ <;> cases status <;> rfl

/-- Claim C8: `solve_model` raises `ValueError` exactly when the objective
string is none of "fairness", "min_hours", "elective_focus", and the error is
raised independently of the solve outcome (it happens before solving). -/
theorem c8_objective_dispatch (df : List Row) (objective : String)
    (status : CpStatus) (sol : Sol) :
    (∃ e, solveModelRun df objective status sol = Except.error e) ↔
      (objective ≠ "fairness" ∧ objective ≠ "min_hours" ∧
        objective ≠ "elective_focus") := by
  unfold solveModelRun dispatchObjective
  by_cases h1 : objective = "fairness"
  · simp [h1]
  · by_cases h2 : objective = "min_hours"
    · simp [h1, h2]
    · by_cases h3 : objective = "elective_focus"
      · simp [h1, h2, h3]
      · simp [h1, h2, h3]

/-- Claim C9: because each slot is covered exactly once and every
(resident, slot) pair is available, the per-resident loads of any feasible
valuation sum to the total Hours of all slots; hence the `min_hours`
objective takes the same value on every feasible valuation. -/
theorem c9_objective_constant (df : List Row) (sol : Sol)
    (hfeas : ModelFeasible df sol) :
    ((residentesOf df).map (totalHoursOf df sol)).sum =
      ((slotsOf df).map (hoursAt df)).sum ∧
    minHoursObj df sol = ((slotsOf df).map (hoursAt df)).sum ∧
    (∀ sol' : Sol, ModelFeasible df sol' →
      minHoursObj df sol' = minHoursObj df sol) := by
  refine ⟨sum_loads_eq_total hfeas.1, sum_loads_eq_total hfeas.1, ?_⟩
  intro sol' h'
  rw [minHoursObj_eq_of_coverage h'.1, minHoursObj_eq_of_coverage hfeas.1]

/-- Witness for C9 at the concrete five-slot instance. -/
theorem c9_witness :
    ModelFeasible dfWeeks solWeeks ∧
    (((residentesOf dfWeeks).map (totalHoursOf dfWeeks solWeeks)).sum =
        ((slotsOf dfWeeks).map (hoursAt dfWeeks)).sum ∧
      minHoursObj dfWeeks solWeeks = ((slotsOf dfWeeks).map (hoursAt dfWeeks)).sum ∧
      (∀ sol' : Sol, ModelFeasible dfWeeks sol' →
        minHoursObj dfWeeks sol' = minHoursObj dfWeeks solWeeks)) :=
  ⟨by decide, c9_objective_constant dfWeeks solWeeks (by decide)⟩

/-- Claim C10: `prepare_availability` marks every (resident, slot) pair
available: every dictionary value is `True`, the keys are exactly the
cartesian product of residents and slots, and each slot's eligible set is the
full resident list — non-empty whenever at least one resident exists. -/
theorem c10_availability_full (df : List Row) (hne : residentesOf df ≠ []) :
    (∀ e ∈ availabilityOf df, e.2 = true) ∧
    ((availabilityOf df).map (fun e => e.1)) =
      pairsFor (residentesOf df) (slotsOf df) ∧
    (∀ r ∈ residentesOf df, ∀ i ∈ slotsOf df,
      ((r, i), true) ∈ availabilityOf df) ∧
    (∀ i ∈ slotsOf df,
      eligibleOf df i = residentesOf df ∧ eligibleOf df i ≠ []) := by
  have hmem : ∀ r ∈ residentesOf df, ∀ i ∈ slotsOf df,
      ((r, i), true) ∈ availabilityOf df := by
    intro r hr i hi
    rw [availabilityOf_eq]
    exact List.mem_map.mpr ⟨(r, i), mem_pairsFor.mpr ⟨hr, hi⟩, rfl⟩
  refine ⟨?_, ?_, hmem, ?_⟩
  · intro e he
    rw [availabilityOf_eq] at he
    obtain ⟨p, -, hp⟩ := List.mem_map.mp he
    rw [← hp]
  · rw [availabilityOf_eq, List.map_map]
    simp [Function.comp_def]
  · intro i hi
    have heq : eligibleOf df i = residentesOf df := by
      apply List.filter_eq_self.mpr
      intro r hr
      exact decide_eq_true (hmem r hr i hi)
    refine ⟨heq, ?_⟩
    rw [heq]
    exact hne

/-- Witness for C10 at the concrete two-slot, two-resident instance. -/
theorem c10_witness :
    residentesOf dfDates ≠ [] ∧
    ((∀ e ∈ availabilityOf dfDates, e.2 = true) ∧
     ((availabilityOf dfDates).map (fun e => e.1)) =
       pairsFor (residentesOf dfDates) (slotsOf dfDates) ∧
     (∀ r ∈ residentesOf dfDates, ∀ i ∈ slotsOf dfDates,
       ((r, i), true) ∈ availabilityOf dfDates) ∧
     (∀ i ∈ slotsOf dfDates,
       eligibleOf dfDates i = residentesOf dfDates ∧ eligibleOf dfDates i ≠ [])) :=
  ⟨by decide, c10_availability_full dfDates (by decide)⟩

end Alocacao
